import Mathlib

/-
Verification of `truth_monitor.py` (derek-pohl/DJTtracker).

The file shallowly embeds the string-processing functions (`clean_html`,
`format_gemini_for_email`) and the per-cycle monitoring logic of
`run_monitor` as executable Lean definitions, and proves properties of the
natural-language specification against them.

Modelling conventions:
* Python strings are Lean `String`s; most work happens on their `List Char`
  payloads.
* `html.unescape` is modelled for the basic named character references
  (`&amp;` `&lt;` `&gt;` `&quot;` `&apos;`, with the HTML4 four also
  recognised without a trailing semicolon, as CPython does); numeric
  references and the long tail of HTML5 names are outside the model.
  Like CPython's implementation, the model only acts at `&` characters.
* `str.upper`, `str.strip`, `str.startswith` are modelled for ASCII data
  (`Char.toUpper`, an ASCII whitespace set, list-prefix test).
* A Python expression that may raise is modelled in `Option`, with `none`
  standing for an uncaught exception.
-/

namespace TruthMonitor

/-- Whitespace set of Python's default `str.strip` (ASCII part). -/
def pyIsSpace (c : Char) : Bool :=
  c = ' ' || c = '\t' || c = '\n' || c = '\x0d' || c = '\x0b' || c = '\x0c'

/-- Left part of `str.strip`: drop leading whitespace. -/
def lstripL (l : List Char) : List Char := l.dropWhile pyIsSpace

/-- Right part of `str.strip`: drop trailing whitespace. -/
def rstripL (l : List Char) : List Char := (l.reverse.dropWhile pyIsSpace).reverse

/-- `str.strip()` on character lists. -/
def stripList (l : List Char) : List Char := rstripL (lstripL l)

/-- `str.strip()` on strings. -/
def pyStrip (s : String) : String := String.mk (stripList s.data)

/-- `str.upper()` (ASCII model). -/
def pyUpper (s : String) : String := String.mk (s.data.map Char.toUpper)

/-- `s.startswith(pre)` (Python `str.startswith`). -/
def pyStartsWith (s pre : String) : Bool := pre.data.isPrefixOf s.data

/-- Named character references of the `html.unescape` model: pairs of
(reference body following the `&`, replacement text).  Longer keys come
before their prefixes so that lookup is longest-match, as in CPython. -/
def entityRefs : List (List Char × List Char) :=
  [("amp;".data, "&".data), ("amp".data, "&".data),
   ("lt;".data, "<".data), ("lt".data, "<".data),
   ("gt;".data, ">".data), ("gt".data, ">".data),
   ("quot;".data, "\"".data), ("quot".data, "\"".data),
   ("apos;".data, "'".data)]

/-- Look up the reference table at the text following a `&`; returns the
replacement and the number of characters consumed. -/
def lookupEntity : List (List Char × List Char) → List Char → Option (List Char × Nat)
  | [], _ => none
  | (k, v) :: tbl, l => if k.isPrefixOf l then some (v, k.length) else lookupEntity tbl l

/-- `html.unescape` (restricted model, see header): replace recognised
character references, leaving other text - in particular every
ampersand-free fragment - unchanged. -/
def unescapeList : List Char → List Char
  | [] => []
  | c :: rest =>
    if c = '&' then
      match lookupEntity entityRefs rest with
      | some (v, k) => v ++ unescapeList (rest.drop k)
      | none => c :: unescapeList rest
    else c :: unescapeList rest
termination_by l => l.length
decreasing_by
  · simp; omega
  · simp
  · simp

/-- Index of the first `>` in a list, if any. -/
def firstGtIdx : List Char → Option Nat
  | [] => none
  | c :: rest => if c = '>' then some 0 else (firstGtIdx rest).map (· + 1)

/-- `re.sub(r'<[^>]+>', '', ·)`: at each `<`, the regex matches up to the
first later `>` provided at least one character lies between (leftmost
match, and `[^>]+` cannot cross a `>`); an unmatched `<` is kept. -/
def removeTags : List Char → List Char
  | [] => []
  | c :: rest =>
    if c = '<' then
      match firstGtIdx rest with
      | some (k + 1) => removeTags (rest.drop (k + 2))
      | _ => c :: removeTags rest
    else c :: removeTags rest
termination_by l => l.length
decreasing_by
  · simp; omega
  · simp
  · simp

/-- `clean_html` (truth_monitor.py lines 103-110): decode HTML entities,
remove `<...>` tags, strip surrounding whitespace. -/
def clean_html (raw_html : String) : String :=
  String.mk (stripList (removeTags (unescapeList raw_html.data)))

/-- For `re.findall(r'\[(.*?)\]', ·)`: scanning the text after a `[`, the
lazy `.*?` stops at the first `]`; `.` does not match a newline, so the
match fails if a newline (or the end) comes first.  Returns the index of
the closing `]`. -/
def closeIdx : List Char → Option Nat
  | [] => none
  | c :: rest =>
    if c = ']' then some 0
    else if c = '\n' then none
    else (closeIdx rest).map (· + 1)

/-- All bracket-delimited tokens, in order (`re.findall(r'\[(.*?)\]', ·)`).
After a successful match scanning resumes past the `]`; after a failed
match it resumes at the next character. -/
def findTokens : List Char → List (List Char)
  | [] => []
  | c :: rest =>
    if c = '[' then
      match closeIdx rest with
      | some j => rest.take j :: findTokens (rest.drop (j + 1))
      | none => findTokens rest
    else findTokens rest
termination_by l => l.length
decreasing_by
  · simp; omega
  · simp
  · simp

/-- Bracket tokens of a string. -/
def tokensOf (t : String) : List String := (findTokens t.data).map String.mk

/-- Sentinel returned for falsy or non-string input (line 115). -/
def invalidResponse : String := "Invalid Gemini response received."

/-- `parts[i+2].upper() in ['UP', 'DOWN', 'MENTIONED']` (lines 142/147). -/
def isImpactLabel (s : String) : Bool := ["UP", "DOWN", "MENTIONED"].contains (pyUpper s)

/-- Impact-label to display-glyph table (lines 157-164).  The source file
literally contains the four-character mojibake sequences written out here
(the emoji's UTF-8 bytes decoded as cp1252), so they are embedded as-is. -/
def impactEmoji (impact_text : String) : String :=
  if impact_text = "UP" then "ðŸ“ˆ"
  else if impact_text = "DOWN" then "ðŸ“‰"
  else if impact_text = "MENTIONED" then "ðŸ’¬"
  else impact_text

/-- One formatted entity line (lines 166-169):
`f"{entity}{detail}: {impact_display}"` where `detail` is the
ticker/sector in parentheses when it is truthy and differs from the
entity. -/
def entityLine (entity ticker_sector impact_display : String) : String :=
  let detail := if ticker_sector ≠ "" ∧ ticker_sector ≠ entity
                then " (" ++ ticker_sector ++ ")" else ""
  entity ++ detail ++ ": " ++ impact_display

/-- The guarded lookahead `j < len(parts) and parts[j].upper() in [...]`
with a raising index access (`none` = exception, unreachable in fact). -/
def labelAt (parts : List String) (j : Nat) : Option Bool :=
  if j < parts.length then
    match parts[j]? with
    | some x => some (isImpactLabel x)
    | none => none
  else some false

/-- The `while i < len(analysis_parts)` loop of lines 132-171, producing
`formatted_lines`.  Indexing is via `Option` (`none` = raised
exception); the loop advances by 3, 2 or 1 exactly as the source does. -/
def formatLoop (parts : List String) (i : Nat) : Option (List String) :=
  if h : i < parts.length then
    match parts[i]? with
    | none => none
    | some entity =>
      match labelAt parts (i + 2) with
      | none => none
      | some true =>
        match parts[i + 1]?, parts[i + 2]? with
        | some ticker_sector, some impact0 =>
          (formatLoop parts (i + 3)).map
            (fun rest => entityLine entity ticker_sector (impactEmoji (pyUpper impact0)) :: rest)
        | _, _ => none
      | some false =>
        match labelAt parts (i + 1) with
        | none => none
        | some true =>
          match parts[i + 1]? with
          | some impact0 =>
            (formatLoop parts (i + 2)).map
              (fun rest => entityLine entity "" (impactEmoji (pyUpper impact0)) :: rest)
          | none => none
        | some false =>
          (formatLoop parts (i + 1)).map (fun rest => ("[" ++ entity ++ "]") :: rest)
  else some []
termination_by parts.length - i
decreasing_by
  · omega
  · omega
  · omega

/-- Input of `format_gemini_for_email`: a Python value that is either a
string or something else (rejected by the `isinstance` check). -/
inductive PyInput where
  | str : String → PyInput
  | nonString : PyInput

/-- `format_gemini_for_email` (lines 112-175).  `none` models a raised
exception; the list indexings `parts[-1]`, `analysis_parts[0]` and those
of the loop are the raising operations. -/
def format_gemini_for_email : PyInput → Option String
  | PyInput.nonString => some invalidResponse
  | PyInput.str t =>
    if t = "" then some invalidResponse
    else
      let parts := tokensOf t
      if parts = [] then some t
      else
        match parts.getLast? with
        | none => none
        | some justification =>
          let analysis_parts := parts.dropLast
          if analysis_parts = [] then some justification
          else
            match analysis_parts[0]? with
            | none => none
            | some first =>
              if pyUpper first = "NONE" then
                some ("NONE" ++ "\n\n" ++ justification)
              else
                match formatLoop analysis_parts 0 with
                | none => none
                | some formatted_lines =>
                  some (String.intercalate "\n" formatted_lines ++ "\n\n" ++ justification)

/-- Grouping rule in the words of the spec (claim C5): consume the
analysis tokens left to right; take a group of three (entity,
ticker/sector, impact) exactly when a third token exists and is an
impact label (case-insensitively `UP`/`DOWN`/`MENTIONED`); otherwise a
group of two (entity, impact) exactly when a second token exists and is
an impact label; otherwise emit the single token bracketed as a fallback
line.  This is the specification side of the refinement proof for the
index-based loop above. -/
def groupSpec : List String → List String
  | [] => []
  | e :: t :: m :: rest =>
    if isImpactLabel m then
      entityLine e t (impactEmoji (pyUpper m)) :: groupSpec rest
    else if isImpactLabel t then
      entityLine e "" (impactEmoji (pyUpper t)) :: groupSpec (m :: rest)
    else
      ("[" ++ e ++ "]") :: groupSpec (t :: m :: rest)
  | [e, t] =>
    if isImpactLabel t then [entityLine e "" (impactEmoji (pyUpper t))]
    else ("[" ++ e ++ "]") :: groupSpec [t]
  | [e] => ["[" ++ e ++ "]"]

/-- A fetched post record; the fields the monitor reads. -/
structure Post where
  id : String
  content : String
deriving DecidableEq, Repr

/-- Outcome of the Gemini call of lines 315-316: the raw response text on
success, or a raised exception (caught at line 318). -/
inductive ClassifyOutcome where
  | ok : String → ClassifyOutcome
  | err : ClassifyOutcome

/-- `gemini_response_text` after the try/except: the stripped text on
success, Python `None` on failure. -/
def geminiText : ClassifyOutcome → Option String
  | ClassifyOutcome.ok raw => some (pyStrip raw)
  | ClassifyOutcome.err => none

/-- Lines 323-331: `should_send_email` is set only when the response is
truthy (non-`None`, non-empty) and `NOTIFY_ALL or not
gemini_response_text.startswith("[NONE]")`. -/
def shouldSendEmail (NOTIFY_ALL : Bool) (gemini_response_text : Option String) : Bool :=
  match gemini_response_text with
  | some r => if r ≠ "" then (NOTIFY_ALL || !(pyStartsWith r "[NONE]")) else false
  | none => false

/-- Observable outcome of one pass of the `while True` loop body. -/
structure CycleResult where
  newCursor : Option String
  classified : Bool
  emailed : Bool
deriving DecidableEq, Repr

/-- One iteration of the monitor loop (lines 272-351).  `latest_seen_post_id`
is the cursor; `posts` is the fetch result (`none` = failure or non-list);
`classify` is what the Gemini call would do if reached.  `classified`
records whether the Gemini call is made, `emailed` whether `send_email`
is invoked (`send_email` catches its own errors, so delivery failure
never alters control flow). -/
def runCycle (NOTIFY_ALL : Bool) (latest_seen_post_id : Option String)
    (posts : Option (List Post)) (classify : ClassifyOutcome) : CycleResult :=
  match posts with
  | some (current_latest_post :: _) =>
    let current_latest_id := current_latest_post.id
    if latest_seen_post_id = none ∨ ¬ latest_seen_post_id = some current_latest_id then
      if ¬ latest_seen_post_id = none then
        let cleaned_content := clean_html current_latest_post.content
        if ¬ cleaned_content = "" then
          { newCursor := some current_latest_id,
            classified := true,
            emailed := shouldSendEmail NOTIFY_ALL (geminiText classify) }
        else
          { newCursor := some current_latest_id, classified := false, emailed := false }
      else
        { newCursor := some current_latest_id, classified := false, emailed := false }
    else
      { newCursor := latest_seen_post_id, classified := false, emailed := false }
  | _ => { newCursor := latest_seen_post_id, classified := false, emailed := false }

/-- The pre-loop cursor seeding (lines 258-267): the id of the first post
of a successful, non-empty initial fetch, else the cursor stays unset. -/
def initialSeed (initial_data : Option (List Post)) : Option String :=
  match initial_data with
  | some (p :: _) => some p.id
  | _ => none

/-! ### Helper lemmas: `String.mk`, stripping -/

theorem mk_data (s : String) : String.mk s.data = s := rfl

theorem rstripL_eq_rdropWhile (l : List Char) : rstripL l = l.rdropWhile pyIsSpace := rfl

/-- The left strip fixes the output of a right strip of a left strip:
the head, if any, is a head of `dropWhile` output, hence non-space. -/
theorem lstripL_rstripL_lstripL (l : List Char) :
    lstripL (rstripL (lstripL l)) = rstripL (lstripL l) := by
  rcases hx : rstripL (lstripL l) with _ | ⟨c, x'⟩
  · simp [lstripL]
  · have hpre : rstripL (lstripL l) <+: lstripL l := by
      rw [rstripL_eq_rdropWhile]
      exact List.rdropWhile_prefix _ _
    rw [hx] at hpre
    obtain ⟨t, ht⟩ := hpre
    have h0 := List.head?_dropWhile_not pyIsSpace l
    have hy : lstripL l = c :: (x' ++ t) := by
      rw [← ht]; simp
    rw [show l.dropWhile pyIsSpace = lstripL l from rfl, hy] at h0
    simp only [List.head?_cons] at h0
    show List.dropWhile pyIsSpace (c :: x') = c :: x'
    rw [List.dropWhile_cons_of_neg]
    simp [h0]

theorem stripList_idem (l : List Char) : stripList (stripList l) = stripList l := by
  show rstripL (lstripL (rstripL (lstripL l))) = rstripL (lstripL l)
  rw [lstripL_rstripL_lstripL, rstripL_eq_rdropWhile, rstripL_eq_rdropWhile,
    List.rdropWhile_idempotent]

/-- `strip` returns a contiguous slice of its input. -/
theorem stripList_slice (l : List Char) : ∃ a b, l = a ++ stripList l ++ b := by
  have h1 : lstripL l <:+ l := List.dropWhile_suffix _
  have h2 : stripList l <+: lstripL l := by
    show rstripL (lstripL l) <+: lstripL l
    rw [rstripL_eq_rdropWhile]
    exact List.rdropWhile_prefix _ _
  obtain ⟨v, hv⟩ := h1
  obtain ⟨u, hu⟩ := h2
  exact ⟨v, u, by rw [List.append_assoc, hu, hv]⟩

/-! ### Helper lemmas: `unescapeList` -/

/-- Like CPython's `html.unescape`, the model is the identity on
ampersand-free text. -/
theorem unescapeList_of_not_amp (l : List Char) (h : '&' ∉ l) : unescapeList l = l := by
  induction l with
  | nil => simp [unescapeList]
  | cons c rest ih =>
    rw [unescapeList]
    have hc : ¬ c = '&' := by
      intro hc; exact h (hc ▸ List.mem_cons_self c rest)
    simp only [if_neg hc]
    rw [ih (fun hm => h (List.mem_cons_of_mem c hm))]

/-! ### Helper lemmas: `removeTags` -/

theorem firstGtIdx_eq_none_iff (l : List Char) : firstGtIdx l = none ↔ '>' ∉ l := by
  induction l with
  | nil => simp [firstGtIdx]
  | cons c rest ih =>
    rw [firstGtIdx]
    by_cases hc : c = '>'
    · simp [hc]
    · simp [hc, Option.map_eq_none, ih, Ne.symm hc]

theorem removeTags_nil : removeTags [] = [] := by
  simp [removeTags]

theorem removeTags_cons_lt_some (rest : List Char) (k : Nat)
    (hF : firstGtIdx rest = some (k + 1)) :
    removeTags ('<' :: rest) = removeTags (rest.drop (k + 2)) := by
  simp [removeTags, hF]

theorem removeTags_cons_lt_fail (rest : List Char)
    (hF : ∀ k, firstGtIdx rest ≠ some (k + 1)) :
    removeTags ('<' :: rest) = '<' :: removeTags rest := by
  rcases h : firstGtIdx rest with _ | j
  · simp [removeTags, h]
  · cases j with
    | zero => simp [removeTags, h]
    | succ k => exact absurd h (hF k)

theorem removeTags_cons_of_ne (c : Char) (rest : List Char) (hc : ¬ c = '<') :
    removeTags (c :: rest) = c :: removeTags rest := by
  simp [removeTags, hc]

theorem removeTags_subset (l : List Char) : ∀ a ∈ removeTags l, a ∈ l := by
  induction l using removeTags.induct with
  | case1 => simp [removeTags_nil]
  | case2 rest k hF ih =>
    intro a ha
    rw [removeTags_cons_lt_some rest k hF] at ha
    exact List.mem_cons_of_mem _ (List.mem_of_mem_drop (ih a ha))
  | case3 rest hF ih =>
    intro a ha
    rw [removeTags_cons_lt_fail rest (fun k hk => hF k hk)] at ha
    rcases List.mem_cons.mp ha with h | h
    · exact h ▸ List.mem_cons_self _ _
    · exact List.mem_cons_of_mem _ (ih a h)
  | case4 c rest hc ih =>
    intro a ha
    rw [removeTags_cons_of_ne c rest hc] at ha
    rcases List.mem_cons.mp ha with h | h
    · exact h ▸ List.mem_cons_self _ _
    · exact List.mem_cons_of_mem _ (ih a h)

theorem removeTags_length_le (l : List Char) : (removeTags l).length ≤ l.length := by
  induction l using removeTags.induct with
  | case1 => simp [removeTags_nil]
  | case2 rest k hF ih =>
    rw [removeTags_cons_lt_some rest k hF]
    simp only [List.length_drop] at ih ⊢
    simp only [List.length_cons]
    omega
  | case3 rest hF ih =>
    rw [removeTags_cons_lt_fail rest (fun k hk => hF k hk)]
    simpa using ih
  | case4 c rest hc ih =>
    rw [removeTags_cons_of_ne c rest hc]
    simpa using ih

/-- The match-failure condition at a `<` (no later `>`, or an immediate
`>`) survives tag removal of the lookahead text. -/
theorem firstGtIdx_fail_removeTags (l : List Char)
    (h : ∀ k, firstGtIdx l ≠ some (k + 1)) :
    ∀ k, firstGtIdx (removeTags l) ≠ some (k + 1) := by
  rcases l with _ | ⟨c, rest⟩
  · intro k; simp [removeTags_nil, firstGtIdx]
  · by_cases hc : c = '>'
    · subst hc
      intro k
      rw [removeTags_cons_of_ne _ _ (by decide)]
      simp [firstGtIdx]
    · have hnone : firstGtIdx rest = none := by
        rcases hF : firstGtIdx rest with _ | j
        · rfl
        · exfalso
          refine h j ?_
          rw [firstGtIdx, if_neg hc, hF]
          rfl
      have hmem : '>' ∉ (c :: rest) := by
        intro hm
        rcases List.mem_cons.mp hm with h1 | h1
        · exact hc h1.symm
        · exact (firstGtIdx_eq_none_iff rest).mp hnone h1
      have hmem2 : '>' ∉ removeTags (c :: rest) :=
        fun hm => hmem (removeTags_subset _ _ hm)
      intro k hk
      rw [(firstGtIdx_eq_none_iff _).mpr hmem2] at hk
      simp at hk

theorem removeTags_idem (l : List Char) : removeTags (removeTags l) = removeTags l := by
  induction l using removeTags.induct with
  | case1 => simp [removeTags_nil]
  | case2 rest k hF ih =>
    rw [removeTags_cons_lt_some rest k hF]
    exact ih
  | case3 rest hF ih =>
    have hF' := firstGtIdx_fail_removeTags rest (fun k hk => hF k hk)
    rw [removeTags_cons_lt_fail rest (fun k hk => hF k hk),
      removeTags_cons_lt_fail (removeTags rest) hF', ih]
  | case4 c rest hc ih =>
    rw [removeTags_cons_of_ne c rest hc, removeTags_cons_of_ne c _ hc, ih]

/-- A first `>` of the first summand of an append is the first `>` of the
append. -/
theorem firstGtIdx_append_of_some (x y : List Char) (k : Nat)
    (h : firstGtIdx x = some k) : firstGtIdx (x ++ y) = some k := by
  induction x generalizing k with
  | nil => rw [firstGtIdx] at h; exact Option.noConfusion h
  | cons c rest ih =>
    rw [firstGtIdx] at h
    rw [List.cons_append, firstGtIdx]
    by_cases hc : c = '>'
    · simpa [hc] using h
    · simp only [if_neg hc] at h ⊢
      rcases Option.map_eq_some'.mp h with ⟨j, hj, rfl⟩
      rw [ih j hj]
      rfl

theorem firstGtIdx_fail_of_append (x y : List Char)
    (h : ∀ k, firstGtIdx (x ++ y) ≠ some (k + 1)) :
    ∀ k, firstGtIdx x ≠ some (k + 1) :=
  fun k hk => h k (firstGtIdx_append_of_some x y (k + 1) hk)

/-- A fixed point of tag removal remains fixed on dropping a prefix. -/
theorem removeTags_fix_right (a b : List Char)
    (h : removeTags (a ++ b) = a ++ b) : removeTags b = b := by
  induction a with
  | nil => simpa using h
  | cons c a' ih =>
    rw [List.cons_append] at h
    by_cases hc : c = '<'
    · subst hc
      rcases hF : firstGtIdx (a' ++ b) with _ | j
      · rw [removeTags_cons_lt_fail _ (by simp [hF])] at h
        exact ih ((List.cons.inj h).2)
      · cases j with
        | zero =>
          rw [removeTags_cons_lt_fail _ (by simp [hF])] at h
          exact ih ((List.cons.inj h).2)
        | succ k =>
          exfalso
          rw [removeTags_cons_lt_some _ k hF] at h
          have h1 := removeTags_length_le ((a' ++ b).drop (k + 2))
          have h2 := congrArg List.length h
          simp only [List.length_drop, List.length_cons] at h1 h2
          omega
    · rw [removeTags_cons_of_ne c _ hc] at h
      exact ih ((List.cons.inj h).2)

/-- A fixed point of tag removal remains fixed on dropping a suffix. -/
theorem removeTags_fix_left (a b : List Char)
    (h : removeTags (a ++ b) = a ++ b) : removeTags a = a := by
  induction a with
  | nil => exact removeTags_nil
  | cons c a' ih =>
    rw [List.cons_append] at h
    by_cases hc : c = '<'
    · subst hc
      rcases hF : firstGtIdx (a' ++ b) with _ | j
      · rw [removeTags_cons_lt_fail _ (by simp [hF])] at h
        have ha' := ih ((List.cons.inj h).2)
        have hfail : ∀ k, firstGtIdx a' ≠ some (k + 1) :=
          firstGtIdx_fail_of_append a' b (by simp [hF])
        rw [removeTags_cons_lt_fail a' hfail, ha']
      · cases j with
        | zero =>
          rw [removeTags_cons_lt_fail _ (by simp [hF])] at h
          have ha' := ih ((List.cons.inj h).2)
          have hfail : ∀ k, firstGtIdx a' ≠ some (k + 1) :=
            firstGtIdx_fail_of_append a' b (by simp [hF])
          rw [removeTags_cons_lt_fail a' hfail, ha']
        | succ k =>
          exfalso
          rw [removeTags_cons_lt_some _ k hF] at h
          have h1 := removeTags_length_le ((a' ++ b).drop (k + 2))
          have h2 := congrArg List.length h
          simp only [List.length_drop, List.length_cons] at h1 h2
          omega
    · rw [removeTags_cons_of_ne c _ hc] at h
      rw [removeTags_cons_of_ne c _ hc, ih ((List.cons.inj h).2)]

theorem removeTags_fix_middle (a m b : List Char)
    (h : removeTags (a ++ m ++ b) = a ++ m ++ b) : removeTags m = m := by
  have h1 : removeTags (m ++ b) = m ++ b := by
    apply removeTags_fix_right a
    rw [← List.append_assoc]
    exact h
  exact removeTags_fix_left m b h1

theorem removeTags_stripList_fix (l : List Char) (h : removeTags l = l) :
    removeTags (stripList l) = stripList l := by
  obtain ⟨a, b, hab⟩ := stripList_slice l
  exact removeTags_fix_middle a (stripList l) b (by rw [← hab]; exact h)

/-! ### Claim C2 -/

/-- Claim C2, refuted as stated: `clean_html` is NOT idempotent for every
input.  Entity decoding happens before tag removal, so text containing a
doubly-escaped entity is decoded one further level by a second pass:
`clean_html "&amp;amp;" = "&amp;"` but cleaning that again gives `"&"`. -/
theorem claim_C2_counterexample :
    clean_html "&amp;amp;" = "&amp;" ∧ clean_html "&amp;" = "&" ∧
    clean_html (clean_html "&amp;amp;") ≠ clean_html "&amp;amp;" := by
  have h9 : "&amp;amp;".data = ['&', 'a', 'm', 'p', ';', 'a', 'm', 'p', ';'] := rfl
  have h5 : "&amp;".data = ['&', 'a', 'm', 'p', ';'] := rfl
  have e1 : clean_html "&amp;amp;" = "&amp;" := by
    simp [clean_html, h9, unescapeList, lookupEntity, entityRefs, removeTags, firstGtIdx,
      stripList, lstripL, rstripL, pyIsSpace, List.isPrefixOf]
  have e2 : clean_html "&amp;" = "&" := by
    simp [clean_html, h5, unescapeList, lookupEntity, entityRefs, removeTags, firstGtIdx,
      stripList, lstripL, rstripL, pyIsSpace, List.isPrefixOf]
  refine ⟨e1, e2, ?_⟩
  rw [e1, e2]
  decide

/-- Claim C2 (amended): HTML cleaning is idempotent on every input whose
cleaned form is free of ampersands (so that no character reference
remains to be decoded a second time): entity decoding is the only
non-idempotent stage, since a second tag-removal pass finds no match in
the output of the first, and stripping a stripped string is the
identity. -/
theorem claim_C2_clean_idempotent_amp_free (s : String)
    (h : '&' ∉ (clean_html s).data) :
    clean_html (clean_html s) = clean_html s := by
  have hdata : (clean_html s).data = stripList (removeTags (unescapeList s.data)) := rfl
  rw [hdata] at h
  show String.mk (stripList (removeTags (unescapeList (clean_html s).data))) = clean_html s
  rw [hdata, unescapeList_of_not_amp _ h,
    removeTags_stripList_fix _ (removeTags_idem (unescapeList s.data)), stripList_idem]
  rfl

/-- Witness for C2 at the concrete input `"<p>Hello &amp; welcome</p>"`
(the spec's own end-to-end example, whose cleaned form
`"Hello & welcome"` still contains an `&`, fails the hypothesis; the
tag-only fragment `"<p>Hi</p>"` satisfies it). -/
theorem claim_C2_witness :
    '&' ∉ (clean_html "<p>Hi</p>").data ∧
    clean_html (clean_html "<p>Hi</p>") = clean_html "<p>Hi</p>" := by
  have hyp : '&' ∉ (clean_html "<p>Hi</p>").data := by
    have hd : "<p>Hi</p>".data = ['<', 'p', '>', 'H', 'i', '<', '/', 'p', '>'] := rfl
    simp [clean_html, hd, unescapeList, lookupEntity, entityRefs, removeTags, firstGtIdx,
      stripList, lstripL, rstripL, pyIsSpace, List.isPrefixOf]
  exact ⟨hyp, claim_C2_clean_idempotent_amp_free "<p>Hi</p>" hyp⟩

/-! ### Helper lemmas: the formatting loop -/

theorem labelAt_eq (parts : List String) (j : Nat) :
    labelAt parts j = some (if h : j < parts.length then isImpactLabel parts[j] else false) := by
  unfold labelAt
  split
  · next h => simp [List.getElem?_eq_getElem h, h]
  · next h => simp [h]

theorem labelAt_ne_none (parts : List String) (j : Nat) : labelAt parts j ≠ none := by
  rw [labelAt_eq]; simp

theorem labelAt_true (parts : List String) (j : Nat) (h : labelAt parts j = some true) :
    ∃ hj : j < parts.length, isImpactLabel parts[j] = true := by
  rw [labelAt_eq] at h
  by_cases hj : j < parts.length
  · refine ⟨hj, ?_⟩
    rw [dif_pos hj] at h
    exact Option.some.inj h
  · rw [dif_neg hj] at h
    exact absurd (Option.some.inj h) (by simp)

theorem labelAt_false (parts : List String) (j : Nat) (h : labelAt parts j = some false) :
    ∀ hj : j < parts.length, isImpactLabel parts[j] = false := by
  intro hj
  rw [labelAt_eq, dif_pos hj] at h
  exact Option.some.inj h

/-- The index-based formatting loop agrees with the structural grouping
rule of the spec on the remaining tokens; in particular it never hits an
out-of-bounds access. -/
theorem formatLoop_eq_groupSpec (parts : List String) (i : Nat) :
    formatLoop parts i = some (groupSpec (parts.drop i)) := by
  induction i using formatLoop.induct parts with
  | case1 x hx hnone =>
    rw [List.getElem?_eq_getElem hx] at hnone
    exact absurd hnone (by simp)
  | case2 x hx entity he hl => exact absurd hl (labelAt_ne_none parts (x + 2))
  | case3 x hx entity he hl2 ticker_sector impact0 hm ht ih =>
    obtain ⟨h2, himp⟩ := labelAt_true parts (x + 2) hl2
    rw [List.getElem?_eq_getElem hx] at he
    rw [List.getElem?_eq_getElem h2] at hm
    rw [List.getElem?_eq_getElem (by omega : x + 1 < parts.length)] at ht
    rw [formatLoop, dif_pos hx, List.getElem?_eq_getElem hx,
      List.getElem?_eq_getElem h2, List.getElem?_eq_getElem (by omega : x + 1 < parts.length),
      hl2, ih]
    rw [List.drop_eq_getElem_cons hx,
      List.drop_eq_getElem_cons (by omega : x + 1 < parts.length),
      List.drop_eq_getElem_cons h2]
    simp only [Option.map_some']
    rw [groupSpec, if_pos himp]
  | case4 x hx entity he hl2 himp =>
    obtain ⟨h2, _⟩ := labelAt_true parts (x + 2) hl2
    exact absurd (himp parts[x + 1] parts[x + 2]
      (List.getElem?_eq_getElem (by omega)) (List.getElem?_eq_getElem h2)) (fun h => h)
  | case5 x hx entity he hl2 hl1 => exact absurd hl1 (labelAt_ne_none parts (x + 1))
  | case6 x hx entity he hl2 hl1 impact0 him ih =>
    obtain ⟨h1, himp1⟩ := labelAt_true parts (x + 1) hl1
    have himp2 := labelAt_false parts (x + 2) hl2
    rw [List.getElem?_eq_getElem hx] at he
    rw [List.getElem?_eq_getElem h1] at him
    rw [formatLoop, dif_pos hx, List.getElem?_eq_getElem hx,
      List.getElem?_eq_getElem h1, hl2, hl1, ih]
    simp only [Option.map_some']
    by_cases h2 : x + 2 < parts.length
    · rw [List.drop_eq_getElem_cons hx, List.drop_eq_getElem_cons h1,
        List.drop_eq_getElem_cons h2]
      rw [groupSpec, if_neg (by simp [himp2 h2]), if_pos himp1]
    · have hd2 : parts.drop (x + 2) = [] := List.drop_eq_nil_of_le (by omega)
      rw [List.drop_eq_getElem_cons hx, List.drop_eq_getElem_cons h1, hd2]
      simp [groupSpec, himp1]
  | case7 x hx entity he hl2 hl1 him =>
    obtain ⟨h1, _⟩ := labelAt_true parts (x + 1) hl1
    rw [List.getElem?_eq_getElem h1] at him
    exact absurd him (by simp)
  | case8 x hx entity he hl2 hl1 ih =>
    have himp2 := labelAt_false parts (x + 2) hl2
    have himp1 := labelAt_false parts (x + 1) hl1
    rw [List.getElem?_eq_getElem hx] at he
    rw [formatLoop, dif_pos hx, List.getElem?_eq_getElem hx, hl2, hl1, ih]
    simp only [Option.map_some']
    by_cases h2 : x + 2 < parts.length
    · rw [List.drop_eq_getElem_cons hx, List.drop_eq_getElem_cons (by omega : x + 1 < parts.length),
        List.drop_eq_getElem_cons h2]
      rw [groupSpec, if_neg (by simp [himp2 h2]), if_neg (by simp [himp1 (by omega)])]
    · by_cases h1 : x + 1 < parts.length
      · have hd2 : parts.drop (x + 2) = [] := List.drop_eq_nil_of_le (by omega)
        rw [List.drop_eq_getElem_cons hx, List.drop_eq_getElem_cons h1, hd2]
        rw [groupSpec, if_neg (by simp [himp1 h1])]
      · have hd1 : parts.drop (x + 1) = [] := List.drop_eq_nil_of_le (by omega)
        rw [List.drop_eq_getElem_cons hx, hd1]
        simp [groupSpec]
  | case9 x hx =>
    rw [formatLoop, dif_neg hx, List.drop_eq_nil_of_le (by omega), groupSpec]


/-! ### The formatter and claims C3, C4, C5, C6, C10 -/

theorem tokensOf_empty : tokensOf "" = [] := by
  simp [tokensOf, findTokens]

theorem ne_empty_of_tokensOf_ne_nil (t : String) (h : tokensOf t ≠ []) : t ≠ "" := by
  intro he
  exact h (he ▸ tokensOf_empty)

/-- Evaluation of the formatter on a string whose tokens split as
analysis list plus final justification. -/
theorem format_eval_concat (t : String) (L : List String) (j : String)
    (hp : tokensOf t = L ++ [j]) :
    format_gemini_for_email (PyInput.str t) =
      (match L with
       | [] => some j
       | a :: as =>
         if pyUpper a = "NONE" then some ("NONE" ++ "\n\n" ++ j)
         else some (String.intercalate "\n" (groupSpec (a :: as)) ++ "\n\n" ++ j)) := by
  have hne : t ≠ "" := ne_empty_of_tokensOf_ne_nil t (by simp [hp])
  simp only [format_gemini_for_email, if_neg hne, hp]
  rw [if_neg (by simp), List.getLast?_concat, List.dropLast_concat]
  cases L with
  | nil => simp
  | cons a as =>
    simp only [List.cons_ne_nil, if_neg, reduceCtorEq]
    rw [if_neg (by simp)]
    simp only [List.getElem?_eq_getElem (by simp : 0 < (a :: as).length), List.getElem_cons_zero]
    by_cases hA : pyUpper a = "NONE"
    · simp [hA]
    · simp [hA, formatLoop_eq_groupSpec]



/-- Claim C3, refuted as stated: the empty string contains no bracket
token, yet the formatter returns the sentinel message (the falsy-input
check of line 114 fires), not the input itself. -/
theorem claim_C3_counterexample :
    tokensOf "" = [] ∧ format_gemini_for_email (PyInput.str "") ≠ some "" := by
  refine ⟨tokensOf_empty, ?_⟩
  simp only [format_gemini_for_email, if_pos rfl]
  simp [invalidResponse]

/-- Claim C3 (amended): for every NON-EMPTY string input containing no
bracket-delimited token, the formatter returns the input unchanged. -/
theorem claim_C3_passthrough (t : String) (hne : t ≠ "") (htok : tokensOf t = []) :
    format_gemini_for_email (PyInput.str t) = some t := by
  simp [format_gemini_for_email, hne, htok]

/-- Witness for C3 at the concrete bracket-free input `"hello"`. -/
theorem claim_C3_witness :
    ("hello" : String) ≠ "" ∧ tokensOf "hello" = [] ∧
    format_gemini_for_email (PyInput.str "hello") = some "hello" := by
  have htok : tokensOf "hello" = [] := by
    have hd : "hello".data = ['h', 'e', 'l', 'l', 'o'] := rfl
    simp [tokensOf, hd, findTokens]
  exact ⟨by decide, htok, claim_C3_passthrough "hello" (by decide) htok⟩

/-- Claim C4: the formatter is total - for every input (well-formed,
malformed, empty or non-string) it produces a result string; none of the
raising index accesses modelled by `Option` is ever reached. -/
theorem claim_C4_formatter_total (x : PyInput) :
    (format_gemini_for_email x).isSome = true := by
  cases x with
  | nonString => simp [format_gemini_for_email]
  | str t =>
    by_cases ht : t = ""
    · simp [format_gemini_for_email, ht]
    · rcases List.eq_nil_or_concat (tokensOf t) with hp | ⟨L, j, hp⟩
      · simp [format_gemini_for_email, ht, hp]
      · rw [format_eval_concat t L j (by simpa [List.concat_eq_append] using hp)]
        cases L with
        | nil => simp
        | cons a as =>
          by_cases hA : pyUpper a = "NONE" <;> simp [hA]

/-- Claim C5: with the last token removed as justification and a first
analysis token other than the no-impact marker, the formatter emits
exactly the lines of the spec's grouping rule (`groupSpec`), joined by
newlines, followed by a blank line and the justification. -/
theorem claim_C5_grouping (t e j : String) (rest : List String)
    (hp : tokensOf t = (e :: rest) ++ [j]) (hA : pyUpper e ≠ "NONE") :
    format_gemini_for_email (PyInput.str t) =
      some (String.intercalate "\n" (groupSpec (e :: rest)) ++ "\n\n" ++ j) := by
  rw [format_eval_concat t (e :: rest) j hp]
  simp [hA]

/-- Witness for C5 at `"[A][B][UP][j]"`. -/
theorem claim_C5_witness :
    tokensOf "[A][B][UP][j]" = (("A" : String) :: ["B", "UP"]) ++ ["j"] ∧
    pyUpper "A" ≠ "NONE" ∧
    format_gemini_for_email (PyInput.str "[A][B][UP][j]") =
      some (String.intercalate "\n" (groupSpec ["A", "B", "UP"]) ++ "\n\n" ++ "j") := by
  have hd : "[A][B][UP][j]".data =
      ['[', 'A', ']', '[', 'B', ']', '[', 'U', 'P', ']', '[', 'j', ']'] := rfl
  have hp : tokensOf "[A][B][UP][j]" = (("A" : String) :: ["B", "UP"]) ++ ["j"] := by
    simp [tokensOf, hd, findTokens, closeIdx]
  exact ⟨hp, by decide, claim_C5_grouping "[A][B][UP][j]" "A" "j" ["B", "UP"] hp (by decide)⟩

/-- Claim C6: when the only bracket token is the no-impact marker `NONE`
the formatter returns exactly that marker, and when a justification
token follows it, the marker is followed by a blank line and the
justification. -/
theorem claim_C6_none_marker (t : String) :
    (tokensOf t = ["NONE"] → format_gemini_for_email (PyInput.str t) = some "NONE") ∧
    (∀ j, tokensOf t = ["NONE", j] →
      format_gemini_for_email (PyInput.str t) = some ("NONE" ++ "\n\n" ++ j)) := by
  constructor
  · intro hp
    rw [format_eval_concat t [] "NONE" (by simpa using hp)]
  · intro j hp
    rw [format_eval_concat t ["NONE"] j (by simpa using hp)]
    have hU : pyUpper "NONE" = "NONE" := by decide
    simp [hU]

/-- Witness for C6 at `"[NONE]"` and `"[NONE][ok]"`. -/
theorem claim_C6_witness :
    tokensOf "[NONE]" = ["NONE"] ∧
    format_gemini_for_email (PyInput.str "[NONE]") = some "NONE" ∧
    tokensOf "[NONE][ok]" = ["NONE", "ok"] ∧
    format_gemini_for_email (PyInput.str "[NONE][ok]") = some ("NONE" ++ "\n\n" ++ "ok") := by
  have hd1 : "[NONE]".data = ['[', 'N', 'O', 'N', 'E', ']'] := rfl
  have hd2 : "[NONE][ok]".data = ['[', 'N', 'O', 'N', 'E', ']', '[', 'o', 'k', ']'] := rfl
  have hp1 : tokensOf "[NONE]" = ["NONE"] := by
    simp [tokensOf, hd1, findTokens, closeIdx]
  have hp2 : tokensOf "[NONE][ok]" = ["NONE", "ok"] := by
    simp [tokensOf, hd2, findTokens, closeIdx]
  exact ⟨hp1, (claim_C6_none_marker "[NONE]").1 hp1,
    hp2, (claim_C6_none_marker "[NONE][ok]").2 "ok" hp2⟩

/-- Claim C10: in a line produced from a three-token group the
ticker/sector is appended in parentheses exactly when it is non-empty
and differs from the entity; otherwise the line is the entity directly
followed by the impact glyph. -/
theorem claim_C10_ticker_detail (e t imp : String) (rest : List String)
    (h : isImpactLabel imp = true) :
    formatLoop (e :: t :: imp :: rest) 0 =
      some ((e ++ (if t ≠ "" ∧ t ≠ e then " (" ++ t ++ ")" else "") ++ ": " ++
        impactEmoji (pyUpper imp)) :: groupSpec rest) := by
  rw [formatLoop_eq_groupSpec]
  simp [groupSpec, h, entityLine]

/-- Witness for C10 at the 3-token group `Ford / F / UP`. -/
theorem claim_C10_witness :
    isImpactLabel "UP" = true ∧
    formatLoop ["Ford", "F", "UP"] 0 =
      some ((("Ford" : String) ++
        (if ("F" : String) ≠ "" ∧ ("F" : String) ≠ "Ford" then " (" ++ "F" ++ ")" else "") ++
        ": " ++ impactEmoji (pyUpper "UP")) :: groupSpec []) :=
  ⟨by decide, claim_C10_ticker_detail "Ford" "F" "UP" [] (by decide)⟩


/-! ### The monitor loop: claims C8, C7, C1 -/

/-- Claim C8: on a cycle that seeds the cursor (cursor unset, fetch
successful and non-empty) no classification is performed and no email is
sent, for every classifier outcome and every value of the
notify-on-every-post flag; the pre-loop initial fetch likewise only
records the newest id. -/
theorem claim_C8_seeding_no_notification (flag : Bool) (p : Post) (tail : List Post)
    (classify : ClassifyOutcome) :
    runCycle flag none (some (p :: tail)) classify =
      { newCursor := some p.id, classified := false, emailed := false } ∧
    initialSeed (some (p :: tail)) = some p.id := by
  constructor
  · simp [runCycle]
  · rfl

/-- Claim C7: when the cursor is set and the newest fetched id differs,
the cursor advances to the new id whatever the classifier does (including
failure), and a later cycle fetching the same newest id does nothing. -/
theorem claim_C7_cursor_advances (flag : Bool) (old : String) (p : Post) (tail : List Post)
    (classify classify2 : ClassifyOutcome) (hne : old ≠ p.id) :
    (runCycle flag (some old) (some (p :: tail)) classify).newCursor = some p.id ∧
    runCycle flag (some p.id) (some (p :: tail)) classify2 =
      { newCursor := some p.id, classified := false, emailed := false } := by
  constructor
  · by_cases hc : clean_html p.content = "" <;> simp [runCycle, hne, hc]
  · simp [runCycle]

/-- Witness for C7: cursor "1", new post id "2", classifier failure. -/
theorem claim_C7_witness :
    ("1" : String) ≠ "2" ∧
    (runCycle false (some "1") (some [{ id := "2", content := "x" }]) ClassifyOutcome.err).newCursor
      = some "2" ∧
    runCycle false (some "2") (some [{ id := "2", content := "x" }]) ClassifyOutcome.err =
      { newCursor := some "2", classified := false, emailed := false } := by
  have h := claim_C7_cursor_advances false "1" { id := "2", content := "x" } []
    ClassifyOutcome.err ClassifyOutcome.err (by decide)
  exact ⟨by decide, h.1, h.2⟩

/-- Claim C1, refuted as stated for the "flag enabled" half: an email is
NOT sent regardless of the classifier response's content - a successful
call whose stripped text is empty sends nothing even with the flag on
(line 324's truthiness test fails). -/
theorem claim_C1_counterexample :
    (runCycle true (some "1") (some [{ id := "2", content := "Hi" }])
      (ClassifyOutcome.ok "")).emailed = false := by
  have hc : clean_html "Hi" ≠ "" := by
    have hd : "Hi".data = ['H', 'i'] := rfl
    simp [clean_html, hd, unescapeList, removeTags, firstGtIdx, stripList, lstripL, rstripL,
      pyIsSpace]
  have hne : ("1" : String) ≠ "2" := by decide
  simp [runCycle, hc, hne, shouldSendEmail, geminiText, pyStrip, stripList, lstripL, rstripL]

/-- Claim C1 (amended): for a new post with non-empty cleaned content and
a classifier call returning a NON-EMPTY stripped response: with the
notify-on-every-post flag disabled, a response starting with the literal
no-impact marker sends no email; with the flag enabled an email is sent
regardless of the response's content. -/
theorem claim_C1_notification_suppression (old : String) (p : Post) (tail : List Post)
    (raw : String) (hne : old ≠ p.id) (hc : clean_html p.content ≠ "")
    (hr : pyStrip raw ≠ "") :
    (pyStartsWith (pyStrip raw) "[NONE]" = true →
      (runCycle false (some old) (some (p :: tail)) (ClassifyOutcome.ok raw)).emailed = false) ∧
    (runCycle true (some old) (some (p :: tail)) (ClassifyOutcome.ok raw)).emailed = true := by
  constructor
  · intro hs
    simp [runCycle, hne, hc, shouldSendEmail, geminiText, hr, hs]
  · simp [runCycle, hne, hc, shouldSendEmail, geminiText, hr]

/-- Witness for C1: new post "2" with content "Hi", classifier response
`"[NONE][x]"`; suppressed when the flag is off, emailed when on. -/
theorem claim_C1_witness :
    ("1" : String) ≠ "2" ∧ clean_html "Hi" ≠ "" ∧ pyStrip "[NONE][x]" ≠ "" ∧
    pyStartsWith (pyStrip "[NONE][x]") "[NONE]" = true ∧
    (runCycle false (some "1") (some [{ id := "2", content := "Hi" }])
      (ClassifyOutcome.ok "[NONE][x]")).emailed = false ∧
    (runCycle true (some "1") (some [{ id := "2", content := "Hi" }])
      (ClassifyOutcome.ok "[NONE][x]")).emailed = true := by
  have hc : clean_html "Hi" ≠ "" := by
    have hd : "Hi".data = ['H', 'i'] := rfl
    simp [clean_html, hd, unescapeList, removeTags, firstGtIdx, stripList, lstripL, rstripL,
      pyIsSpace]
  have h := claim_C1_notification_suppression "1" { id := "2", content := "Hi" } [] "[NONE][x]"
    (by decide) hc (by decide)
  exact ⟨by decide, hc, by decide, by decide, h.1 (by decide), h.2⟩


/-! ### Case-sensitivity of the suppression test: claim C9 -/

theorem closeIdx_append (md rest : List Char) (h : ∀ c ∈ md, c ≠ ']' ∧ c ≠ '\n') :
    closeIdx (md ++ ']' :: rest) = some md.length := by
  induction md with
  | nil => simp [closeIdx]
  | cons c cs ih =>
    have hc := h c (List.mem_cons_self _ _)
    rw [List.cons_append, closeIdx]
    simp [hc.1, hc.2, ih (fun d hd => h d (List.mem_cons_of_mem _ hd))]

theorem findTokens_bracket (md rest : List Char) (h : ∀ c ∈ md, c ≠ ']' ∧ c ≠ '\n') :
    findTokens ('[' :: (md ++ ']' :: rest)) = md :: findTokens rest := by
  rw [findTokens]
  simp only [if_pos rfl, closeIdx_append md rest h]
  have htake : (md ++ ']' :: rest).take md.length = md :=
    List.take_left' rfl
  have hdrop : (md ++ ']' :: rest).drop (md.length + 1) = rest := by
    have : md ++ ']' :: rest = (md ++ [']']) ++ rest := by simp
    rw [this]
    exact List.drop_left' (by simp)
  rw [htake, hdrop]
  simp

theorem pyUpper_none_chars (m : String) (h : pyUpper m = "NONE") :
    ∃ a b c d, m.data = [a, b, c, d] ∧ a.toUpper = 'N' ∧ b.toUpper = 'O' ∧
      c.toUpper = 'N' ∧ d.toUpper = 'E' := by
  have hd : m.data.map Char.toUpper = ['N', 'O', 'N', 'E'] := by
    have := congrArg String.data h
    simpa [pyUpper] using this
  rcases hm : m.data with _ | ⟨a, _ | ⟨b, _ | ⟨c, _ | ⟨d, _ | t⟩⟩⟩⟩ <;>
    rw [hm] at hd <;> simp at hd
  exact ⟨a, b, c, d, rfl, hd.1, hd.2.1, hd.2.2.1, hd.2.2.2⟩



/-- Claim C9: the email-suppression test (line 326) is a case-sensitive
literal check for `"[NONE]"`, while the formatter's no-impact test (line
128) is case-insensitive.  For a (stripped) response starting with the
marker in any other casing, followed by a well-formed justification, an
email is sent even with the notify-on-every-post flag disabled, and the
formatter still renders the no-impact output. -/
theorem claim_C9_case_sensitivity (old : String) (p : Post) (tail : List Post)
    (raw m restStr j : String) (ts : List String)
    (hne : old ≠ p.id) (hc : clean_html p.content ≠ "")
    (hstrip : pyStrip raw = "[" ++ m ++ "]" ++ restStr)
    (hU : pyUpper m = "NONE") (hM : m ≠ "NONE")
    (hrest : tokensOf restStr = ts ++ [j]) :
    (runCycle false (some old) (some (p :: tail)) (ClassifyOutcome.ok raw)).emailed = true ∧
    format_gemini_for_email (PyInput.str (pyStrip raw)) = some ("NONE" ++ "\n\n" ++ j) := by
  obtain ⟨a, b, c, d, hdata, ha, hb, hc', hd'⟩ := pyUpper_none_chars m hU
  have hchars : ∀ x ∈ m.data, x ≠ ']' ∧ x ≠ '\n' := by
    intro x hx
    rw [hdata] at hx
    have hxu : x.toUpper = 'N' ∨ x.toUpper = 'O' ∨ x.toUpper = 'E' := by
      rcases List.mem_cons.mp hx with rfl | hx
      · exact Or.inl ha
      rcases List.mem_cons.mp hx with rfl | hx
      · exact Or.inr (Or.inl hb)
      rcases List.mem_cons.mp hx with rfl | hx
      · exact Or.inl hc'
      rcases List.mem_cons.mp hx with rfl | hx
      · exact Or.inr (Or.inr hd')
      · exact absurd hx (List.not_mem_nil x)
    constructor
    · rintro rfl
      revert hxu
      decide
    · rintro rfl
      revert hxu
      decide
  have hr : (pyStrip raw).data = '[' :: (m.data ++ ']' :: restStr.data) := by
    rw [hstrip]; simp
  have htok : tokensOf (pyStrip raw) = m :: (ts ++ [j]) := by
    rw [tokensOf, hr, findTokens_bracket _ _ hchars, List.map_cons, mk_data]
    rw [show (findTokens restStr.data).map String.mk = tokensOf restStr from rfl, hrest]
  have hfmt := format_eval_concat (pyStrip raw) (m :: ts) j (by simpa using htok)
  have hsw : pyStartsWith (pyStrip raw) "[NONE]" = false := by
    rw [Bool.eq_false_iff]
    intro htrue
    rw [pyStartsWith, List.isPrefixOf_iff_prefix, hr, hdata,
      show "[NONE]".data = ['[', 'N', 'O', 'N', 'E', ']'] from rfl] at htrue
    simp only [List.cons_append, List.cons_prefix_cons] at htrue
    obtain ⟨-, hA, hB, hC, hD, -⟩ := htrue
    apply hM
    have : m.data = ['N', 'O', 'N', 'E'] := by rw [hdata, ← hA, ← hB, ← hC, ← hD]
    calc m = String.mk m.data := (mk_data m).symm
    _ = "NONE" := by rw [this]
  have hremail : pyStrip raw ≠ "" := by
    intro h0
    have := congrArg String.data h0
    rw [hr] at this
    simp at this
  refine ⟨?_, ?_⟩
  · simp [runCycle, hne, hc, shouldSendEmail, geminiText, hremail, hsw]
  · rw [hfmt]
    simp [hU]

/-- Witness for C9: response `"[None][ok]"` (marker cased `None`), new
post "2" with content "Hi", flag disabled. -/
theorem claim_C9_witness :
    ("1" : String) ≠ "2" ∧ clean_html "Hi" ≠ "" ∧
    pyStrip "[None][ok]" = "[" ++ "None" ++ "]" ++ "[ok]" ∧
    pyUpper "None" = "NONE" ∧ ("None" : String) ≠ "NONE" ∧
    tokensOf "[ok]" = [] ++ ["ok"] ∧
    (runCycle false (some "1") (some [{ id := "2", content := "Hi" }])
      (ClassifyOutcome.ok "[None][ok]")).emailed = true ∧
    format_gemini_for_email (PyInput.str (pyStrip "[None][ok]")) =
      some ("NONE" ++ "\n\n" ++ "ok") := by
  have hc : clean_html "Hi" ≠ "" := by
    have hd : "Hi".data = ['H', 'i'] := rfl
    simp [clean_html, hd, unescapeList, removeTags, firstGtIdx, stripList, lstripL, rstripL,
      pyIsSpace]
  have hrest : tokensOf "[ok]" = [] ++ ["ok"] := by
    have hd : "[ok]".data = ['[', 'o', 'k', ']'] := rfl
    simp [tokensOf, hd, findTokens, closeIdx]
  have h := claim_C9_case_sensitivity "1" { id := "2", content := "Hi" } [] "[None][ok]"
    "None" "[ok]" "ok" [] (by decide) hc (by decide) (by decide) (by decide) hrest
  exact ⟨by decide, hc, by decide, by decide, by decide, hrest, h.1, h.2⟩


end TruthMonitor
